import Mathlib

/-!
Shallow embedding of the feed-aggregation and engagement-mutation core of the
my-sns application (Next.js route handlers over a Supabase relational store).

Tables are modelled as Lean lists in insertion order; UUID identifiers and
timestamps are modelled as naturals (`nextId` / `now` act as the store's
generators).  A SQL `ORDER BY created_at` is modelled as a stable insertion
sort over the insertion-ordered table, and `.single()` lookups as `List.find?`
over the relevant unique column.
-/

namespace MySns

/-- Row of the users table (id, clerk_id, name, created_at). -/
structure UserRow where
  id : Nat
  clerkId : String
  name : String
  createdAt : Nat
deriving DecidableEq, Repr

/-- Row of the posts table (id, user_id, image_url, caption, created_at, updated_at). -/
structure PostRow where
  id : Nat
  userId : Nat
  imageUrl : String
  caption : Option String
  createdAt : Nat
  updatedAt : Nat
deriving DecidableEq, Repr

/-- Row of the likes table (id, post_id, user_id, created_at). -/
structure LikeRow where
  id : Nat
  postId : Nat
  userId : Nat
  createdAt : Nat
deriving DecidableEq, Repr

/-- Row of the comments table; content is the JS string modelled as a char list. -/
structure CommentRow where
  id : Nat
  postId : Nat
  userId : Nat
  content : List Char
  createdAt : Nat
  updatedAt : Nat
deriving DecidableEq, Repr

/-- Row of the follows table (id, follower_id, following_id, created_at). -/
structure FollowRow where
  id : Nat
  followerId : Nat
  followingId : Nat
  createdAt : Nat
deriving DecidableEq, Repr

/-- The relational store: the five relations in insertion order, plus the
store's id and timestamp generators for inserted rows. -/
structure DB where
  users : List UserRow
  posts : List PostRow
  likes : List LikeRow
  comments : List CommentRow
  follows : List FollowRow
  nextId : Nat
  now : Nat
deriving DecidableEq, Repr

/-- JS String.prototype.trim on a char list: strip whitespace from both ends. -/
def trimChars (s : List Char) : List Char :=
  ((s.dropWhile Char.isWhitespace).reverse.dropWhile Char.isWhitespace).reverse

/-- The recurring users-lookup: select ... from users where clerk_id = x single(). -/
def lookupUserByClerkId (db : DB) (cid : String) : Option UserRow :=
  db.users.find? (fun u => u.clerkId == cid)

/-! ## Stable sort modelling SQL ORDER BY

A stable insertion sort keyed by an arbitrary Nat-valued key; descending and
ascending variants.  Equal-key rows keep the relative order of the input list
(the table's insertion order). -/

/-- Insert a row into a descending-by-key list, placed before the first element
whose key is less than or equal to its key (so equal keys keep the earlier row
first). -/
def insertKeyDesc (key : α → Nat) (r : α) : List α → List α
  | [] => [r]
  | x :: xs => if key x ≤ key r then r :: x :: xs else x :: insertKeyDesc key r xs

/-- Stable insertion sort, descending by key. -/
def sortKeyDesc (key : α → Nat) : List α → List α
  | [] => []
  | r :: rs => insertKeyDesc key r (sortKeyDesc key rs)

/-- Insert a row into an ascending-by-key list. -/
def insertKeyAsc (key : α → Nat) (r : α) : List α → List α
  | [] => [r]
  | x :: xs => if key r ≤ key x then r :: x :: xs else x :: insertKeyAsc key r xs

/-- Stable insertion sort, ascending by key. -/
def sortKeyAsc (key : α → Nat) : List α → List α
  | [] => []
  | r :: rs => insertKeyAsc key r (sortKeyAsc key rs)

theorem mem_insertKeyDesc (key : α → Nat) (r a : α) (l : List α) :
    a ∈ insertKeyDesc key r l ↔ a = r ∨ a ∈ l := by
  induction l with
  | nil => simp [insertKeyDesc]
  | cons x xs ih =>
    by_cases h : key x ≤ key r
    · simp [insertKeyDesc, h]
    · simp [insertKeyDesc, h, ih]
      tauto

theorem mem_sortKeyDesc (key : α → Nat) (a : α) (l : List α) :
    a ∈ sortKeyDesc key l ↔ a ∈ l := by
  induction l with
  | nil => simp [sortKeyDesc]
  | cons x xs ih => simp [sortKeyDesc, mem_insertKeyDesc, ih]

theorem length_insertKeyDesc (key : α → Nat) (r : α) (l : List α) :
    (insertKeyDesc key r l).length = l.length + 1 := by
  induction l with
  | nil => rfl
  | cons x xs ih =>
    by_cases h : key x ≤ key r
    · simp [insertKeyDesc, h]
    · simp [insertKeyDesc, h, ih]

theorem length_sortKeyDesc (key : α → Nat) (l : List α) :
    (sortKeyDesc key l).length = l.length := by
  induction l with
  | nil => rfl
  | cons x xs ih => simp [sortKeyDesc, length_insertKeyDesc, ih]

/-- Sortedness of the descending sort: all later keys are at most earlier keys. -/
theorem insertKeyDesc_pairwise_le (key : α → Nat) (r : α) (l : List α)
    (hl : l.Pairwise (fun a b => key b ≤ key a)) :
    (insertKeyDesc key r l).Pairwise (fun a b => key b ≤ key a) := by
  induction l with
  | nil => simp [insertKeyDesc]
  | cons x xs ih =>
    rcases List.pairwise_cons.mp hl with ⟨hx, hxs⟩
    by_cases h : key x ≤ key r
    · rw [insertKeyDesc, if_pos h]
      refine List.pairwise_cons.mpr ⟨?_, hl⟩
      intro y hy
      rcases List.mem_cons.mp hy with rfl | hy
      · exact h
      · exact le_trans (hx y hy) h
    · rw [insertKeyDesc, if_neg h]
      refine List.pairwise_cons.mpr ⟨?_, ih hxs⟩
      intro y hy
      rcases (mem_insertKeyDesc key r y xs).mp hy with rfl | hy
      · exact le_of_not_le h
      · exact hx y hy

theorem sortKeyDesc_pairwise_le (key : α → Nat) (l : List α) :
    (sortKeyDesc key l).Pairwise (fun a b => key b ≤ key a) := by
  induction l with
  | nil => simp [sortKeyDesc]
  | cons x xs ih => exact insertKeyDesc_pairwise_le key x _ ih

/-- Stability of the descending sort, phrased with a strictly increasing tag on
the input: in the output, a later element has strictly smaller key, or equal
key and strictly larger tag. -/
theorem insertKeyDesc_pairwise_tag (key tag : α → Nat) (r : α) (l : List α)
    (hl : l.Pairwise (fun a b => key b < key a ∨ (key a = key b ∧ tag a < tag b)))
    (hr : ∀ x ∈ l, tag r < tag x) :
    (insertKeyDesc key r l).Pairwise
      (fun a b => key b < key a ∨ (key a = key b ∧ tag a < tag b)) := by
  induction l with
  | nil => simp [insertKeyDesc]
  | cons x xs ih =>
    rcases List.pairwise_cons.mp hl with ⟨hx, hxs⟩
    by_cases h : key x ≤ key r
    · rw [insertKeyDesc, if_pos h]
      refine List.pairwise_cons.mpr ⟨?_, hl⟩
      intro y hy
      rcases List.mem_cons.mp hy with rfl | hy
      · rcases lt_or_eq_of_le h with hlt | heq
        · exact Or.inl hlt
        · exact Or.inr ⟨heq.symm, hr y (List.mem_cons_self _ _)⟩
      · rcases hx y hy with hlt | ⟨heq, _⟩
        · exact Or.inl (lt_of_lt_of_le hlt h)
        · rcases lt_or_eq_of_le h with hlt2 | heq2
          · exact Or.inl (heq ▸ hlt2)
          · exact Or.inr ⟨heq2.symm.trans heq, hr y (List.mem_cons_of_mem x hy)⟩
    · rw [insertKeyDesc, if_neg h]
      refine List.pairwise_cons.mpr ⟨?_, ?_⟩
      · intro y hy
        rcases (mem_insertKeyDesc key r y xs).mp hy with rfl | hy
        · exact Or.inl (lt_of_not_le h)
        · exact hx y hy
      · exact ih hxs (fun y hy => hr y (List.mem_cons_of_mem x hy))

theorem sortKeyDesc_pairwise_tag (key tag : α → Nat) (l : List α)
    (hl : l.Pairwise (fun a b => tag a < tag b)) :
    (sortKeyDesc key l).Pairwise
      (fun a b => key b < key a ∨ (key a = key b ∧ tag a < tag b)) := by
  induction l with
  | nil => simp [sortKeyDesc]
  | cons x xs ih =>
    rcases List.pairwise_cons.mp hl with ⟨hx, hxs⟩
    refine insertKeyDesc_pairwise_tag key tag x _ (ih hxs) ?_
    intro y hy
    exact hx y ((mem_sortKeyDesc key y xs).mp hy)

theorem insertKeyDesc_cons (key : α → Nat) (r x : α) (xs : List α) :
    insertKeyDesc key r (x :: xs) =
      if key x ≤ key r then r :: x :: xs else x :: insertKeyDesc key r xs := rfl

theorem insertKeyDesc_cons_of_le (key : α → Nat) (r : α) (l : List α)
    (h : ∀ y ∈ l, key y ≤ key r) : insertKeyDesc key r l = r :: l := by
  cases l with
  | nil => rfl
  | cons x xs => rw [insertKeyDesc, if_pos (h x (List.mem_cons_self _ _))]

theorem filter_insertKeyDesc_pos (key : α → Nat) (q : α → Bool) (r : α) (l : List α)
    (hq : q r = true) (hl : l.Pairwise (fun a b => key b ≤ key a)) :
    (insertKeyDesc key r l).filter q = insertKeyDesc key r (l.filter q) := by
  induction l with
  | nil => simp [insertKeyDesc, hq]
  | cons x xs ih =>
    rcases List.pairwise_cons.mp hl with ⟨hx, hxs⟩
    by_cases h : key x ≤ key r
    · rw [insertKeyDesc, if_pos h]
      by_cases hqx : q x = true
      · rw [List.filter_cons_of_pos hq, List.filter_cons_of_pos hqx,
          insertKeyDesc, if_pos h]
      · rw [List.filter_cons_of_pos hq, List.filter_cons_of_neg (by simpa using hqx),
          insertKeyDesc_cons_of_le key r (xs.filter q)
            (fun y hy => le_trans (hx y (List.mem_of_mem_filter hy)) h)]
    · rw [insertKeyDesc, if_neg h]
      by_cases hqx : q x = true
      · rw [List.filter_cons_of_pos hqx, ih hxs, List.filter_cons_of_pos hqx,
          insertKeyDesc_cons, if_neg h]
      · rw [List.filter_cons_of_neg (by simpa using hqx), ih hxs,
          List.filter_cons_of_neg (by simpa using hqx)]

theorem filter_insertKeyDesc_neg (key : α → Nat) (q : α → Bool) (r : α) (l : List α)
    (hq : q r = false) :
    (insertKeyDesc key r l).filter q = l.filter q := by
  induction l with
  | nil => simp [insertKeyDesc, hq]
  | cons x xs ih =>
    by_cases h : key x ≤ key r
    · rw [insertKeyDesc, if_pos h, List.filter_cons_of_neg (by simp [hq])]
    · rw [insertKeyDesc, if_neg h]
      by_cases hqx : q x = true
      · rw [List.filter_cons_of_pos hqx, List.filter_cons_of_pos hqx, ih]
      · rw [List.filter_cons_of_neg (by simpa using hqx),
          List.filter_cons_of_neg (by simpa using hqx), ih]

/-- The stable descending sort commutes with filtering (SQL: a WHERE clause may
be pushed through an ORDER BY). -/
theorem filter_sortKeyDesc (key : α → Nat) (q : α → Bool) (l : List α) :
    (sortKeyDesc key l).filter q = sortKeyDesc key (l.filter q) := by
  induction l with
  | nil => rfl
  | cons x xs ih =>
    rw [sortKeyDesc]
    by_cases hqx : q x = true
    · rw [filter_insertKeyDesc_pos key q x _ hqx (sortKeyDesc_pairwise_le key xs), ih,
        List.filter_cons_of_pos hqx, sortKeyDesc]
    · rw [filter_insertKeyDesc_neg key q x _ (by simpa using hqx), ih,
        List.filter_cons_of_neg (by simpa using hqx)]

theorem insertKeyDesc_append_of_lt (key : α → Nat) (r : α) (l : List α)
    (h : ∀ x ∈ l, key r < key x) : insertKeyDesc key r l = l ++ [r] := by
  induction l with
  | nil => rfl
  | cons x xs ih =>
    rw [insertKeyDesc, if_neg (not_le_of_lt (h x (List.mem_cons_self _ _)))]
    rw [ih (fun y hy => h y (List.mem_cons_of_mem x hy))]
    rfl

/-- Sorting a strictly increasing list in descending order reverses it. -/
theorem sortKeyDesc_of_strict_incr (key : α → Nat) (l : List α)
    (hl : l.Pairwise (fun a b => key a < key b)) :
    sortKeyDesc key l = l.reverse := by
  induction l with
  | nil => rfl
  | cons x xs ih =>
    rcases List.pairwise_cons.mp hl with ⟨hx, hxs⟩
    rw [sortKeyDesc, ih hxs, insertKeyDesc_append_of_lt key x xs.reverse
      (fun y hy => hx y (List.mem_reverse.mp hy)), List.reverse_cons]

/-- Sorting an already ascending list in ascending order is the identity. -/
theorem sortKeyAsc_of_sorted (key : α → Nat) (l : List α)
    (hl : l.Pairwise (fun a b => key a ≤ key b)) :
    sortKeyAsc key l = l := by
  induction l with
  | nil => rfl
  | cons x xs ih =>
    rcases List.pairwise_cons.mp hl with ⟨hx, hxs⟩
    rw [sortKeyAsc, ih hxs]
    cases xs with
    | nil => rfl
    | cons y ys => rw [insertKeyAsc, if_pos (hx y (List.mem_cons_self _ _))]

/-! ## Feed query (GET /api/posts, app/api/posts/route.ts) -/

/-- Author identity as shaped into a feed item (postUser block of the handler). -/
structure AuthorView where
  id : Nat
  clerkId : String
  name : String
  createdAt : Nat
deriving DecidableEq, Repr

/-- Comment as shaped into recentComments (comment plus author identity). -/
structure CommentView where
  id : Nat
  postId : Nat
  userId : Nat
  content : List Char
  createdAt : Nat
  updatedAt : Nat
  user : AuthorView
deriving DecidableEq, Repr

/-- Aggregate counts per post (stats block). -/
structure StatsView where
  likesCount : Nat
  commentsCount : Nat
deriving DecidableEq, Repr

/-- One enriched post of the feed response (PostWithRelations). -/
structure PostView where
  id : Nat
  imageUrl : String
  caption : Option String
  createdAt : Nat
  updatedAt : Nat
  userId : Nat
  user : AuthorView
  stats : StatsView
  isLiked : Bool
  recentComments : List CommentView
deriving DecidableEq, Repr

/-- Row of the post_stats view.  Modelled from the spec: the view's SQL is not
in the sources; section 4.2 describes it as per-post like/comment counts over
the Like and Comment relations, with absent ids meaning zero counts. -/
structure StatRow where
  postId : Nat
  likesCount : Nat
  commentsCount : Nat
deriving DecidableEq, Repr

/-- The three fan-out sub-queries of the feed handler. -/
inductive SubQuery where
  | stats
  | viewerLikes
  | comments
deriving DecidableEq, Repr

/-- Feed response: the enriched page plus the pagination block, and the record
of which fan-out sub-queries the handler issued against the store. -/
structure FeedResponse where
  posts : List PostView
  page : Nat
  limit : Nat
  total : Nat
  hasMore : Bool
  queries : List SubQuery
deriving DecidableEq, Repr

/-- Number of like rows of a post (likes_count of the post_stats view). -/
def likesCnt (db : DB) (pid : Nat) : Nat :=
  (db.likes.filter (fun l => l.postId == pid)).length

/-- Number of comment rows of a post (comments_count of the post_stats view). -/
def commentsCnt (db : DB) (pid : Nat) : Nat :=
  (db.comments.filter (fun c => c.postId == pid)).length

/-- Posts joined with their author (users!inner join of the base query). -/
def joinedPosts (db : DB) : List PostRow :=
  db.posts.filter (fun p => db.users.any (fun u => u.id == p.userId))

/-- The base query's filtered row set: joined posts, optionally restricted to a
resolved author id (the eq on user_id). -/
def feedMatching (db : DB) (authorId : Option Nat) : List PostRow :=
  match authorId with
  | some a => (joinedPosts db).filter (fun p => p.userId == a)
  | none => joinedPosts db

/-- The base query's ordered row set (order by created_at descending). -/
def feedSorted (db : DB) (authorId : Option Nat) : List PostRow :=
  sortKeyDesc (fun p => p.createdAt) (feedMatching db authorId)

/-- The base page: range(offset, offset+limit-1) with offset = (page-1)*limit. -/
def feedPagePosts (db : DB) (page limit : Nat) (authorId : Option Nat) : List PostRow :=
  ((feedSorted db authorId).drop ((page - 1) * limit)).take limit

/-- The page's post-id set, the fan-out key. -/
def feedPostIds (db : DB) (page limit : Nat) (authorId : Option Nat) : List Nat :=
  (feedPagePosts db page limit authorId).map (fun p => p.id)

/-- Result of the post_stats fan-out query restricted to the page's id set.
Modelled from the spec: one count row per requested post id. -/
def feedStats (db : DB) (ids : List Nat) : List StatRow :=
  ids.map (fun i => { postId := i, likesCount := likesCnt db i, commentsCount := commentsCnt db i })

/-- Whether the viewer-likes sub-query runs: a viewer is present, the page is
nonempty, and the viewer's account row resolves. -/
def feedViewerLikesRuns (db : DB) (viewer : Option String) (ids : List Nat) : Bool :=
  match viewer with
  | some v =>
    if ids.length > 0 then
      match lookupUserByClerkId db v with
      | some _ => true
      | none => false
    else false
  | none => false

/-- The viewer's liked post ids among the page (userLikes of the handler). -/
def feedUserLikes (db : DB) (viewer : Option String) (ids : List Nat) : List Nat :=
  match viewer with
  | some v =>
    if ids.length > 0 then
      match lookupUserByClerkId db v with
      | some u =>
        (db.likes.filter (fun l => l.userId == u.id && ids.contains l.postId)).map
          (fun l => l.postId)
      | none => []
    else []
  | none => []

/-- The comment-preview fan-out query: comments of the page's posts joined with
their author, ordered by created_at descending. -/
def feedComments (db : DB) (ids : List Nat) : List CommentRow :=
  sortKeyDesc (fun c => c.createdAt)
    (db.comments.filter
      (fun c => ids.contains c.postId && db.users.any (fun u => u.id == c.userId)))

/-- Comment row shaped with its author's identity (the map over comment rows). -/
def mkCommentView (db : DB) (c : CommentRow) : CommentView :=
  { id := c.id, postId := c.postId, userId := c.userId, content := c.content,
    createdAt := c.createdAt, updatedAt := c.updatedAt,
    user :=
      match db.users.find? (fun u => u.id == c.userId) with
      | some u => { id := u.id, clerkId := u.clerkId, name := u.name, createdAt := u.createdAt }
      | none => { id := 0, clerkId := "", name := "", createdAt := c.createdAt } }

/-- Author block of a feed item; the handler copies the post's created_at into
the user object. -/
def mkAuthorView (db : DB) (p : PostRow) : AuthorView :=
  match db.users.find? (fun u => u.id == p.userId) with
  | some u => { id := u.id, clerkId := u.clerkId, name := u.name, createdAt := p.createdAt }
  | none => { id := 0, clerkId := "", name := "", createdAt := p.createdAt }

/-- The per-post merge step of the handler: stats by find, isLiked by includes,
preview as the first two of the post's comments in the descending list. -/
def mkFeedView (db : DB) (stats : List StatRow) (userLikes : List Nat)
    (sortedComments : List CommentRow) (p : PostRow) : PostView :=
  { id := p.id, imageUrl := p.imageUrl, caption := p.caption,
    createdAt := p.createdAt, updatedAt := p.updatedAt, userId := p.userId,
    user := mkAuthorView db p,
    stats :=
      match stats.find? (fun s => s.postId == p.id) with
      | some s => { likesCount := s.likesCount, commentsCount := s.commentsCount }
      | none => { likesCount := 0, commentsCount := 0 },
    isLiked := userLikes.contains p.id,
    recentComments :=
      ((sortedComments.filter (fun c => c.postId == p.id)).take 2).map (mkCommentView db) }

/-- Core of GET /api/posts once the author filter has been resolved (or was
absent): base page, fan-out, merge, pagination block. -/
def getFeedCore (db : DB) (page limit : Nat) (authorId : Option Nat)
    (viewer : Option String) : FeedResponse :=
  let pagePosts := feedPagePosts db page limit authorId
  let ids := feedPostIds db page limit authorId
  let stats := feedStats db ids
  let userLikes := feedUserLikes db viewer ids
  let sortedComments := feedComments db ids
  let views := pagePosts.map (mkFeedView db stats userLikes sortedComments)
  { posts := views, page := page, limit := limit,
    total := views.length, hasMore := views.length == limit,
    queries := [SubQuery.stats]
      ++ (if feedViewerLikesRuns db viewer ids then [SubQuery.viewerLikes] else [])
      ++ [SubQuery.comments] }

/-- GET /api/posts: resolve the optional author filter (a clerk id); an
unresolved filter returns the empty page without touching the fan-out. -/
def getFeed (db : DB) (page limit : Nat) (filterUserId viewer : Option String) :
    FeedResponse :=
  match filterUserId with
  | none => getFeedCore db page limit none viewer
  | some f =>
    match lookupUserByClerkId db f with
    | some t => getFeedCore db page limit (some t.id) viewer
    | none =>
      { posts := [], page := page, limit := limit, total := 0, hasMore := false,
        queries := [] }

/-! ## Post detail (GET /api/posts/:id, app/api/posts/[postId]/route.ts) -/

/-- Whether the viewer has liked the given post (the .single() probe on likes). -/
def viewerLiked (db : DB) (viewer : Option String) (pid : Nat) : Bool :=
  match viewer with
  | some v =>
    match lookupUserByClerkId db v with
    | some u => db.likes.any (fun l => l.postId == pid && l.userId == u.id)
    | none => false
  | none => false

/-- GET /api/posts/:id — none is the 404 case; the full comment list is ordered
by created_at ascending (oldest first). -/
def getPost (db : DB) (postId : Nat) (viewer : Option String) : Option PostView :=
  match (joinedPosts db).find? (fun p => p.id == postId) with
  | none => none
  | some p =>
    some
      { id := p.id, imageUrl := p.imageUrl, caption := p.caption,
        createdAt := p.createdAt, updatedAt := p.updatedAt, userId := p.userId,
        user := mkAuthorView db p,
        stats := { likesCount := likesCnt db postId, commentsCount := commentsCnt db postId },
        isLiked := viewerLiked db viewer postId,
        recentComments :=
          (sortKeyAsc (fun c => c.createdAt)
            (db.comments.filter
              (fun c => c.postId == postId && db.users.any (fun u => u.id == c.userId)))).map
            (mkCommentView db) }

/-! ## Engagement mutators -/

/-- Outcomes of POST /api/likes (app/api/likes/route.ts). -/
inductive LikeOutcome where
  | success (like : LikeRow)
  | userNotFound
  | alreadyLiked
  | storeError
deriving DecidableEq, Repr

/-- HTTP status the like handler attaches to each outcome. -/
def LikeOutcome.status : LikeOutcome → Nat
  | .success _ => 200
  | .userNotFound => 404
  | .alreadyLiked => 409
  | .storeError => 500

/-- POST /api/likes: resolve the caller's account, then insert; the store's
unique (post_id, user_id) and foreign-key constraints are modelled from the
spec (the schema SQL is not in the sources): a duplicate insert raises the
unique-violation the handler maps to 409 alreadyLiked, a missing post raises a
non-unique store error the handler maps to 500. -/
def likePost (db : DB) (clerkId : String) (postId : Nat) : LikeOutcome × DB :=
  match lookupUserByClerkId db clerkId with
  | none => (.userNotFound, db)
  | some u =>
    if db.likes.any (fun l => l.postId == postId && l.userId == u.id) then
      (.alreadyLiked, db)
    else if db.posts.any (fun p => p.id == postId) then
      let row : LikeRow := { id := db.nextId, postId := postId, userId := u.id, createdAt := db.now }
      (.success row, { db with likes := db.likes ++ [row], nextId := db.nextId + 1 })
    else (.storeError, db)

/-- DELETE /api/likes: delete by (post_id, user_id); removing an absent like is
a plain success. -/
def unlikePost (db : DB) (clerkId : String) (postId : Nat) : Option DB :=
  match lookupUserByClerkId db clerkId with
  | none => none
  | some u =>
    some { db with likes := db.likes.filter (fun l => !(l.postId == postId && l.userId == u.id)) }

/-- Outcomes of POST /api/follows (app/api/follows/route.ts). -/
inductive FollowOutcome where
  | success (f : FollowRow)
  | userNotFound
  | selfFollow
  | targetNotFound
  | alreadyFollowing
deriving DecidableEq, Repr

/-- HTTP status the follow handler attaches to each outcome. -/
def FollowOutcome.status : FollowOutcome → Nat
  | .success _ => 200
  | .userNotFound => 404
  | .selfFollow => 400
  | .targetNotFound => 404
  | .alreadyFollowing => 409

/-- POST /api/follows: caller lookup, self-follow guard, target existence, then
insert; a duplicate hits the unique (follower_id, following_id) constraint
(modelled from the spec) and is mapped to 409. -/
def followUser (db : DB) (clerkId : String) (followingId : Nat) : FollowOutcome × DB :=
  match lookupUserByClerkId db clerkId with
  | none => (.userNotFound, db)
  | some u =>
    if u.id == followingId then (.selfFollow, db)
    else
      match db.users.find? (fun x => x.id == followingId) with
      | none => (.targetNotFound, db)
      | some _ =>
        if db.follows.any (fun f => f.followerId == u.id && f.followingId == followingId) then
          (.alreadyFollowing, db)
        else
          let row : FollowRow :=
            { id := db.nextId, followerId := u.id, followingId := followingId,
              createdAt := db.now }
          (.success row, { db with follows := db.follows ++ [row], nextId := db.nextId + 1 })

/-- Outcomes of POST /api/comments (app/api/comments/route.ts). -/
inductive CommentOutcome where
  | success (c : CommentRow)
  | emptyContent
  | tooLong
  | userNotFound
  | postNotFound
deriving DecidableEq, Repr

/-- HTTP status the comment-create handler attaches to each outcome. -/
def CommentOutcome.status : CommentOutcome → Nat
  | .success _ => 200
  | .emptyContent => 400
  | .tooLong => 400
  | .userNotFound => 404
  | .postNotFound => 404

/-- POST /api/comments: blank check on the trimmed content, then the length cap
on the raw content, then caller and post lookups, then insert of the trimmed
content. -/
def createComment (db : DB) (clerkId : String) (postId : Nat) (content : List Char) :
    CommentOutcome × DB :=
  if (trimChars content).length == 0 then (.emptyContent, db)
  else if content.length > 2200 then (.tooLong, db)
  else
    match lookupUserByClerkId db clerkId with
    | none => (.userNotFound, db)
    | some u =>
      match db.posts.find? (fun p => p.id == postId) with
      | none => (.postNotFound, db)
      | some _ =>
        let row : CommentRow :=
          { id := db.nextId, postId := postId, userId := u.id,
            content := trimChars content, createdAt := db.now, updatedAt := db.now }
        (.success row, { db with comments := db.comments ++ [row], nextId := db.nextId + 1 })

/-- Outcomes of DELETE /api/comments/:id (app/api/comments/[commentId]/route.ts). -/
inductive DeleteCommentOutcome where
  | success
  | userNotFound
  | commentNotFound
  | forbidden
deriving DecidableEq, Repr

/-- HTTP status the comment-delete handler attaches to each outcome. -/
def DeleteCommentOutcome.status : DeleteCommentOutcome → Nat
  | .success => 200
  | .userNotFound => 404
  | .commentNotFound => 404
  | .forbidden => 403

/-- DELETE /api/comments/:id: caller lookup, comment lookup, author-only guard,
then delete by id. -/
def deleteComment (db : DB) (clerkId : String) (commentId : Nat) :
    DeleteCommentOutcome × DB :=
  match lookupUserByClerkId db clerkId with
  | none => (.userNotFound, db)
  | some u =>
    match db.comments.find? (fun c => c.id == commentId) with
    | none => (.commentNotFound, db)
    | some c =>
      if c.userId != u.id then (.forbidden, db)
      else
        (.success, { db with comments := db.comments.filter (fun x => !(x.id == commentId)) })

/-- Outcomes of PUT /api/posts/:id. -/
inductive EditPostOutcome where
  | success (p : PostRow)
  | invalidCaption
  | userNotFound
  | postNotFound
  | forbidden
deriving DecidableEq, Repr

/-- HTTP status the post-edit handler attaches to each outcome. -/
def EditPostOutcome.status : EditPostOutcome → Nat
  | .success _ => 200
  | .invalidCaption => 400
  | .userNotFound => 404
  | .postNotFound => 404
  | .forbidden => 403

/-- Caption update applied to the matched row: empty string becomes null,
anything else is stored trimmed; updated_at is refreshed. -/
def applyCaption (now : Nat) (caption : Option String) (p : PostRow) : PostRow :=
  { p with
    caption := match caption with
      | some s => if s == "" then none else some s.trim
      | none => p.caption,
    updatedAt := now }

/-- PUT /api/posts/:id: caption validation (on the trimmed caption), caller
lookup, post lookup, owner-only guard, then update by (id, user_id). -/
def editPost (db : DB) (clerkId : String) (postId : Nat) (caption : Option String) :
    EditPostOutcome × DB :=
  if (match caption with | some s => decide (s.trim.length > 2200) | none => false) then
    (.invalidCaption, db)
  else
    match lookupUserByClerkId db clerkId with
    | none => (.userNotFound, db)
    | some u =>
      match db.posts.find? (fun p => p.id == postId) with
      | none => (.postNotFound, db)
      | some p =>
        if p.userId != u.id then (.forbidden, db)
        else
          (.success (applyCaption db.now caption p),
            { db with posts := db.posts.map (fun x =>
                if x.id == postId && x.userId == u.id then applyCaption db.now caption x
                else x) })

/-- Outcomes of DELETE /api/posts/:id. -/
inductive DeletePostOutcome where
  | success
  | userNotFound
  | postNotFound
  | forbidden
deriving DecidableEq, Repr

/-- HTTP status the post-delete handler attaches to each outcome. -/
def DeletePostOutcome.status : DeletePostOutcome → Nat
  | .success => 200
  | .userNotFound => 404
  | .postNotFound => 404
  | .forbidden => 403

/-- DELETE /api/posts/:id: caller lookup, post lookup, owner-only guard,
best-effort storage delete (no visible store effect), then delete by
(id, user_id); the store-level cascade to likes and comments is modelled from
the spec and the handler's own cascade comment. -/
def deletePost (db : DB) (clerkId : String) (postId : Nat) : DeletePostOutcome × DB :=
  match lookupUserByClerkId db clerkId with
  | none => (.userNotFound, db)
  | some u =>
    match db.posts.find? (fun p => p.id == postId) with
    | none => (.postNotFound, db)
    | some p =>
      if p.userId != u.id then (.forbidden, db)
      else
        (.success,
          { db with
            posts := db.posts.filter (fun x => !(x.id == postId && x.userId == u.id)),
            likes := db.likes.filter (fun l => !(l.postId == postId)),
            comments := db.comments.filter (fun c => !(c.postId == postId)) })

/-! ## Pointwise characterization of the feed merge

The merge step of the handler closes over the page-level fan-out results; the
following definition gives the same enrichment as a function of the store and
the single post, and the lemmas show the two agree on every post of the page. -/

/-- Page-independent enrichment of one post of the page. -/
def enrichPt (db : DB) (viewer : Option String) (p : PostRow) : PostView :=
  { id := p.id, imageUrl := p.imageUrl, caption := p.caption,
    createdAt := p.createdAt, updatedAt := p.updatedAt, userId := p.userId,
    user := mkAuthorView db p,
    stats := { likesCount := likesCnt db p.id, commentsCount := commentsCnt db p.id },
    isLiked := viewerLiked db viewer p.id,
    recentComments :=
      ((sortKeyDesc (fun c => c.createdAt)
          (db.comments.filter
            (fun c => c.postId == p.id && db.users.any (fun u => u.id == c.userId)))).take 2).map
        (mkCommentView db) }

theorem feedStats_find (db : DB) (ids : List Nat) (pid : Nat) (h : pid ∈ ids) :
    (feedStats db ids).find? (fun s => s.postId == pid) =
      some { postId := pid, likesCount := likesCnt db pid, commentsCount := commentsCnt db pid } := by
  induction ids with
  | nil => cases h
  | cons i is ih =>
    by_cases hi : i = pid
    · subst hi
      simp [feedStats, List.find?_cons]
    · rcases List.mem_cons.mp h with rfl | hmem
      · exact absurd rfl hi
      · simpa [feedStats, List.find?_cons, hi] using ih hmem

theorem feedUserLikes_contains (db : DB) (viewer : Option String) (ids : List Nat)
    (pid : Nat) (h : pid ∈ ids) :
    (feedUserLikes db viewer ids).contains pid = viewerLiked db viewer pid := by
  cases viewer with
  | none => rfl
  | some v =>
    have hlen : ids.length > 0 := List.length_pos.mpr (List.ne_nil_of_mem h)
    rw [feedUserLikes, viewerLiked]
    rw [if_pos hlen]
    cases hu : lookupUserByClerkId db v with
    | none => rfl
    | some u =>
      rw [Bool.eq_iff_iff]
      simp only [List.contains_eq_any_beq, List.any_eq_true, List.mem_map, List.mem_filter,
        Bool.and_eq_true, beq_iff_eq]
      constructor
      · rintro ⟨x, ⟨l, ⟨hl, huid2, hin⟩, rfl⟩, rfl⟩
        exact ⟨l, hl, rfl, huid2⟩
      · rintro ⟨l, hl, hpid, huid⟩
        refine ⟨l.postId, ⟨l, ⟨hl, huid, ?_⟩, rfl⟩, hpid.symm⟩
        rw [hpid]
        simpa using h

theorem feedComments_filter (db : DB) (ids : List Nat) (pid : Nat) (h : pid ∈ ids) :
    (feedComments db ids).filter (fun c => c.postId == pid) =
      sortKeyDesc (fun c => c.createdAt)
        (db.comments.filter
          (fun c => c.postId == pid && db.users.any (fun u => u.id == c.userId))) := by
  rw [feedComments, filter_sortKeyDesc, List.filter_filter]
  congr 1
  apply List.filter_congr
  intro c _
  by_cases hc : c.postId = pid
  · subst hc
    simp [h]
  · have hb : (c.postId == pid) = false := beq_eq_false_iff_ne.mpr hc
    rw [hb]
    simp

theorem mkFeedView_eq_enrichPt (db : DB) (page limit : Nat) (authorId : Option Nat)
    (viewer : Option String) (p : PostRow) (hp : p ∈ feedPagePosts db page limit authorId) :
    mkFeedView db (feedStats db (feedPostIds db page limit authorId))
      (feedUserLikes db viewer (feedPostIds db page limit authorId))
      (feedComments db (feedPostIds db page limit authorId)) p = enrichPt db viewer p := by
  have hid : p.id ∈ feedPostIds db page limit authorId :=
    List.mem_map.mpr ⟨p, hp, rfl⟩
  rw [mkFeedView, enrichPt, feedStats_find db _ _ hid, feedUserLikes_contains db _ _ _ hid,
    feedComments_filter db _ _ hid]

/-- The posts of the core feed response are the page's rows enriched pointwise. -/
theorem getFeedCore_posts (db : DB) (page limit : Nat) (authorId : Option Nat)
    (viewer : Option String) :
    (getFeedCore db page limit authorId viewer).posts =
      (feedPagePosts db page limit authorId).map (enrichPt db viewer) := by
  apply List.map_congr_left
  intro p hp
  exact mkFeedView_eq_enrichPt db page limit authorId viewer p hp

/-! ## Ordering of the feed -/

theorem feedMatching_sublist (db : DB) (authorId : Option Nat) :
    (feedMatching db authorId).Sublist db.posts := by
  cases authorId with
  | none => exact List.filter_sublist db.posts
  | some a => exact (List.filter_sublist _).trans (List.filter_sublist db.posts)

theorem feedSorted_pairwise (db : DB) (authorId : Option Nat)
    (hids : db.posts.Pairwise (fun a b => a.id < b.id)) :
    (feedSorted db authorId).Pairwise
      (fun a b => b.createdAt < a.createdAt ∨ (a.createdAt = b.createdAt ∧ a.id < b.id)) :=
  sortKeyDesc_pairwise_tag (fun p => p.createdAt) (fun p => p.id) _
    (List.Pairwise.sublist (feedMatching_sublist db authorId) hids)

theorem feedPagePosts_sublist (db : DB) (page limit : Nat) (authorId : Option Nat) :
    (feedPagePosts db page limit authorId).Sublist (feedSorted db authorId) :=
  (List.take_sublist _ _).trans (List.drop_sublist _ _)

/-- Concatenating the base pages 1..N is a prefix of the ordered row set. -/
theorem feedPages_concat (db : DB) (limit : Nat) (authorId : Option Nat) (N : Nat) :
    ((List.range N).map (fun i => feedPagePosts db (i + 1) limit authorId)).flatten =
      (feedSorted db authorId).take (N * limit) := by
  induction N with
  | zero => simp
  | succ n ih =>
    rw [List.range_succ, List.map_append, List.flatten_append, ih]
    simp only [List.map_cons, List.map_nil, List.flatten_cons, List.flatten_nil,
      List.append_nil, feedPagePosts, Nat.add_sub_cancel]
    rw [Nat.succ_mul, List.take_add]

theorem getFeedCore_posts_pairwise (db : DB) (page limit : Nat) (authorId : Option Nat)
    (viewer : Option String) (hids : db.posts.Pairwise (fun a b => a.id < b.id)) :
    ((getFeedCore db page limit authorId viewer).posts).Pairwise
      (fun a b => b.createdAt < a.createdAt ∨ (a.createdAt = b.createdAt ∧ a.id < b.id)) := by
  rw [getFeedCore_posts]
  refine List.pairwise_map.mpr ?_
  exact List.Pairwise.sublist (feedPagePosts_sublist db page limit authorId)
    (feedSorted_pairwise db authorId hids)

theorem getFeedCore_concat_pairwise (db : DB) (limit : Nat) (authorId : Option Nat)
    (viewer : Option String) (N : Nat)
    (hids : db.posts.Pairwise (fun a b => a.id < b.id)) :
    (((List.range N).map
        (fun i => (getFeedCore db (i + 1) limit authorId viewer).posts)).flatten).Pairwise
      (fun a b => b.createdAt < a.createdAt ∨ (a.createdAt = b.createdAt ∧ a.id < b.id)) := by
  have hmap : (List.range N).map
      (fun i => (getFeedCore db (i + 1) limit authorId viewer).posts) =
      (List.range N).map
        (fun i => (feedPagePosts db (i + 1) limit authorId).map (enrichPt db viewer)) :=
    List.map_congr_left (fun i _ => getFeedCore_posts db (i + 1) limit authorId viewer)
  rw [hmap]
  have hmm : (List.range N).map
      (fun i => (feedPagePosts db (i + 1) limit authorId).map (enrichPt db viewer)) =
      ((List.range N).map (fun i => feedPagePosts db (i + 1) limit authorId)).map
        (List.map (enrichPt db viewer)) := by
    rw [List.map_map]
    rfl
  rw [hmm, ← List.map_flatten, feedPages_concat]
  refine List.pairwise_map.mpr ?_
  exact List.Pairwise.sublist (List.take_sublist _ _) (feedSorted_pairwise db authorId hids)

theorem flatten_map_nil (l : List β) : (l.map (fun _ => ([] : List α))).flatten = [] := by
  induction l with
  | nil => rfl
  | cons x xs ih =>
    simp only [List.map_cons, List.flatten_cons, List.nil_append]
    exact ih

/-- The base query's matching row set as a function of the raw author filter
(empty when the filter does not resolve, matching the handler's early return). -/
def feedMatchingByFilter (db : DB) (filterUserId : Option String) : List PostRow :=
  match filterUserId with
  | none => feedMatching db none
  | some f =>
    match lookupUserByClerkId db f with
    | some t => feedMatching db (some t.id)
    | none => []

theorem feedPagePosts_length_eq_limit (db : DB) (limit N : Nat) (authorId : Option Nat)
    (hN : 1 ≤ N) (hlen : (feedMatching db authorId).length = N * limit) :
    (feedPagePosts db N limit authorId).length = limit := by
  obtain ⟨n, rfl⟩ := Nat.exists_eq_add_of_le hN
  rw [feedPagePosts, List.length_take, List.length_drop, feedSorted, length_sortKeyDesc,
    hlen, Nat.add_comm 1 n, Nat.add_sub_cancel, Nat.succ_mul, Nat.add_sub_cancel_left,
    Nat.min_self]

/-- Small store used by the witnesses: one user, two posts with equal
created_at timestamps. -/
def dbW : DB :=
  { users := [{ id := 1, clerkId := "ck_alice", name := "alice", createdAt := 0 }],
    posts :=
      [{ id := 2, userId := 1, imageUrl := "u1", caption := none, createdAt := 5, updatedAt := 5 },
       { id := 3, userId := 1, imageUrl := "u2", caption := some "hi", createdAt := 5, updatedAt := 5 }],
    likes := [], comments := [], follows := [], nextId := 10, now := 100 }

/-- C1: every page of getFeed is ordered newest-first by createdAt, ties broken
by insertion order (ascending id under the store's increasing id assignment),
and concatenating pages 1..N under a fixed filter yields a list whose
createdAt values are non-increasing, with the same consistent tie-break. -/
theorem c1_feed_ordering (db : DB) (limit : Nat) (filterUserId viewer : Option String)
    (hids : db.posts.Pairwise (fun a b => a.id < b.id)) :
    (∀ page, ((getFeed db page limit filterUserId viewer).posts).Pairwise
        (fun a b => b.createdAt < a.createdAt ∨ (a.createdAt = b.createdAt ∧ a.id < b.id))) ∧
    (∀ N, (((List.range N).map
          (fun i => (getFeed db (i + 1) limit filterUserId viewer).posts)).flatten).Pairwise
        (fun a b => b.createdAt ≤ a.createdAt)) := by
  have himp : ∀ (a b : PostView),
      (b.createdAt < a.createdAt ∨ (a.createdAt = b.createdAt ∧ a.id < b.id)) →
      b.createdAt ≤ a.createdAt := by
    rintro a b (hlt | ⟨heq, _⟩)
    · exact le_of_lt hlt
    · exact le_of_eq heq.symm
  constructor
  · intro page
    cases hf : filterUserId with
    | none => exact getFeedCore_posts_pairwise db page limit none viewer hids
    | some f =>
      cases hl : lookupUserByClerkId db f with
      | some t =>
        have hg : getFeed db page limit (some f) viewer
            = getFeedCore db page limit (some t.id) viewer := by
          simp [getFeed, hl]
        rw [hg]
        exact getFeedCore_posts_pairwise db page limit (some t.id) viewer hids
      | none => simp [getFeed, hl]
  · intro N
    cases hf : filterUserId with
    | none =>
      exact List.Pairwise.imp (himp _ _)
        (getFeedCore_concat_pairwise db limit none viewer N hids)
    | some f =>
      cases hl : lookupUserByClerkId db f with
      | some t =>
        have : (List.range N).map
            (fun i => (getFeed db (i + 1) limit (some f) viewer).posts) =
            (List.range N).map
              (fun i => (getFeedCore db (i + 1) limit (some t.id) viewer).posts) :=
          List.map_congr_left (fun i _ => by simp [getFeed, hl])
        rw [this]
        exact List.Pairwise.imp (himp _ _)
          (getFeedCore_concat_pairwise db limit (some t.id) viewer N hids)
      | none =>
        have : (List.range N).map
            (fun i => (getFeed db (i + 1) limit (some f) viewer).posts) =
            (List.range N).map (fun _ => ([] : List PostView)) :=
          List.map_congr_left (fun i _ => by simp [getFeed, hl])
        rw [this, flatten_map_nil]
        exact List.Pairwise.nil

/-- Witness for C1 at a concrete store with a createdAt tie. -/
theorem c1_feed_ordering_witness :
    (dbW.posts.Pairwise (fun a b => a.id < b.id)) ∧
    ((∀ page, ((getFeed dbW page 10 none none).posts).Pairwise
        (fun a b => b.createdAt < a.createdAt ∨ (a.createdAt = b.createdAt ∧ a.id < b.id))) ∧
    (∀ N, (((List.range N).map
          (fun i => (getFeed dbW (i + 1) 10 none none).posts)).flatten).Pairwise
        (fun a b => b.createdAt ≤ a.createdAt))) :=
  ⟨by decide, c1_feed_ordering dbW 10 none none (by decide)⟩

/-- C2: the pagination flag equals the heuristic returned-count-equals-limit
test (for a positive limit, as the spec requires), and in particular on a
store whose matching row count is an exact multiple of the limit, the true
last full page still reports hasMore. -/
theorem c2_hasMore (db : DB) (page limit : Nat) (filterUserId viewer : Option String)
    (hlim : 1 ≤ limit) :
    ((getFeed db page limit filterUserId viewer).hasMore
        = ((getFeed db page limit filterUserId viewer).posts.length == limit)) ∧
    (∀ N, 1 ≤ N → (feedMatchingByFilter db filterUserId).length = N * limit →
      (getFeed db N limit filterUserId viewer).hasMore = true) := by
  have hcore : ∀ (p : Nat) (aid : Option Nat),
      (getFeedCore db p limit aid viewer).hasMore
        = ((getFeedCore db p limit aid viewer).posts.length == limit) := by
    intro p aid
    simp [getFeedCore]
  have hcoreN : ∀ (N : Nat) (aid : Option Nat), 1 ≤ N →
      (feedMatching db aid).length = N * limit →
      (getFeedCore db N limit aid viewer).hasMore = true := by
    intro N aid hN hlen
    have hplen : (feedPagePosts db N limit aid).length = limit :=
      feedPagePosts_length_eq_limit db limit N aid hN hlen
    simp [getFeedCore, hplen]
  constructor
  · cases hf : filterUserId with
    | none => exact hcore page none
    | some f =>
      cases hl : lookupUserByClerkId db f with
      | some t => simpa [getFeed, hl] using hcore page (some t.id)
      | none =>
        have h0 : (0 == limit) = false := by
          cases limit with
          | zero => omega
          | succ n => rfl
        simp [getFeed, hl, h0]
  · intro N hN hlen
    cases hf : filterUserId with
    | none =>
      rw [hf] at hlen
      have hlen2 : (feedMatching db none).length = N * limit := by
        simpa [feedMatchingByFilter] using hlen
      exact hcoreN N none hN hlen2
    | some f =>
      rw [hf] at hlen
      cases hl : lookupUserByClerkId db f with
      | some t =>
        have hlen2 : (feedMatching db (some t.id)).length = N * limit := by
          simpa [feedMatchingByFilter, hl] using hlen
        have hg : getFeed db N limit (some f) viewer
            = getFeedCore db N limit (some t.id) viewer := by
          simp [getFeed, hl]
        rw [hg]
        exact hcoreN N (some t.id) hN hlen2
      | none =>
        have hlen2 : (0 : Nat) = N * limit := by
          simpa [feedMatchingByFilter, hl] using hlen
        have hpos : 0 < N * limit := Nat.mul_pos hN hlim
        omega

/-- Witness for C2: two posts, limit 1; page 2 is the true last page and still
reports hasMore. -/
theorem c2_hasMore_witness :
    1 ≤ 1 ∧
    (((getFeed dbW 1 1 none none).hasMore
        = ((getFeed dbW 1 1 none none).posts.length == 1)) ∧
    (∀ N, 1 ≤ N → (feedMatchingByFilter dbW none).length = N * 1 →
      (getFeed dbW N 1 none none).hasMore = true)) :=
  ⟨by decide, c2_hasMore dbW 1 1 none none (by decide)⟩

/-- C3 as stated is false: with an empty posts table the base page is empty,
yet the handler still issues the aggregate-stats and comment-preview fan-out
queries (with an empty id set). -/
def dbEmptyPosts : DB :=
  { users := [{ id := 1, clerkId := "ck_v", name := "viewer", createdAt := 0 }],
    posts := [], likes := [], comments := [], follows := [], nextId := 10, now := 100 }

theorem c3_counterexample :
    (getFeed dbEmptyPosts 1 10 none (some "ck_v")).posts = [] ∧
    SubQuery.stats ∈ (getFeed dbEmptyPosts 1 10 none (some "ck_v")).queries ∧
    SubQuery.comments ∈ (getFeed dbEmptyPosts 1 10 none (some "ck_v")).queries := by
  decide

theorem feedViewerLikesRuns_nil (db : DB) (viewer : Option String) :
    feedViewerLikesRuns db viewer [] = false := by
  cases viewer with
  | none => rfl
  | some v => simp [feedViewerLikesRuns]

/-- C3 amended: when the base page is empty the result is empty and only the
viewer-like sub-query is skipped; the stats and comment-preview queries are
still issued.  The unresolved-author-filter path does short-circuit before any
fan-out. -/
theorem c3_empty_page_queries :
    (∀ (db : DB) (page limit : Nat) (aid : Option Nat) (viewer : Option String),
      feedPagePosts db page limit aid = [] →
      (getFeedCore db page limit aid viewer).posts = [] ∧
      SubQuery.viewerLikes ∉ (getFeedCore db page limit aid viewer).queries ∧
      SubQuery.stats ∈ (getFeedCore db page limit aid viewer).queries ∧
      SubQuery.comments ∈ (getFeedCore db page limit aid viewer).queries) ∧
    (∀ (db : DB) (page limit : Nat) (f : String) (viewer : Option String),
      lookupUserByClerkId db f = none →
      (getFeed db page limit (some f) viewer).queries = []) := by
  constructor
  · intro db page limit aid viewer h
    have hids : feedPostIds db page limit aid = [] := by
      rw [feedPostIds, h]
      rfl
    refine ⟨?_, ?_, ?_, ?_⟩
    · simp [getFeedCore, h]
    · simp [getFeedCore, hids, feedViewerLikesRuns_nil]
    · simp [getFeedCore]
    · simp [getFeedCore]
  · intro db page limit f viewer h
    simp [getFeed, h]

/-- Witness for C3 amended, at the store with no posts. -/
theorem c3_empty_page_queries_witness :
    (feedPagePosts dbEmptyPosts 1 10 none = [] ∧
      ((getFeedCore dbEmptyPosts 1 10 none (some "ck_v")).posts = [] ∧
      SubQuery.viewerLikes ∉ (getFeedCore dbEmptyPosts 1 10 none (some "ck_v")).queries ∧
      SubQuery.stats ∈ (getFeedCore dbEmptyPosts 1 10 none (some "ck_v")).queries ∧
      SubQuery.comments ∈ (getFeedCore dbEmptyPosts 1 10 none (some "ck_v")).queries)) ∧
    (lookupUserByClerkId dbEmptyPosts "nobody" = none ∧
      (getFeed dbEmptyPosts 1 10 (some "nobody") (some "ck_v")).queries = []) :=
  ⟨⟨by decide, c3_empty_page_queries.1 dbEmptyPosts 1 10 none (some "ck_v") (by decide)⟩,
   ⟨by decide, c3_empty_page_queries.2 dbEmptyPosts 1 10 "nobody" (some "ck_v") (by decide)⟩⟩

/-! ## Comment ordering (C4) -/

theorem mem_joined_of_mem_page (db : DB) (page limit : Nat) (aid : Option Nat)
    (p : PostRow) (hp : p ∈ feedPagePosts db page limit aid) : p ∈ joinedPosts db := by
  have h1 : p ∈ feedSorted db aid := (feedPagePosts_sublist db page limit aid).subset hp
  have h2 : p ∈ feedMatching db aid := (mem_sortKeyDesc _ _ _).mp h1
  cases aid with
  | none => exact h2
  | some a => exact List.mem_of_mem_filter h2

/-- On a table with strictly increasing ids, the single-row lookup of a present
row by id over a filtered table finds exactly that row. -/
theorem find_filter_by_id (l : List PostRow) (q : PostRow → Bool) (p : PostRow)
    (hids : l.Pairwise (fun a b => a.id < b.id)) (hp : p ∈ l) (hq : q p = true) :
    (l.filter q).find? (fun x => x.id == p.id) = some p := by
  induction l with
  | nil => cases hp
  | cons x xs ih =>
    rcases List.pairwise_cons.mp hids with ⟨hx, hxs⟩
    rcases List.mem_cons.mp hp with rfl | hpmem
    · rw [List.filter_cons_of_pos hq, List.find?_cons]
      simp
    · have hne : (x.id == p.id) = false :=
        beq_eq_false_iff_ne.mpr (Nat.ne_of_lt (hx p hpmem))
      by_cases hqx : q x = true
      · rw [List.filter_cons_of_pos hqx, List.find?_cons, hne]
        exact ih hxs hpmem
      · rw [List.filter_cons_of_neg (by simpa using hqx)]
        exact ih hxs hpmem

/-- C4: for a post whose comments, in insertion order, are five rows with
strictly increasing createdAt, the feed list view previews exactly the two
most recent comments newest-first, while the detail view returns all five
oldest-first. -/
theorem c4_comment_ordering (db : DB) (page limit : Nat) (aid : Option Nat)
    (viewer : Option String) (p : PostRow) (k1 k2 k3 k4 k5 : CommentRow)
    (hids : db.posts.Pairwise (fun a b => a.id < b.id))
    (hmem : p ∈ feedPagePosts db page limit aid)
    (hc : db.comments.filter (fun c => c.postId == p.id) = [k1, k2, k3, k4, k5])
    (hFK : ∀ c ∈ db.comments, db.users.any (fun u => u.id == c.userId) = true)
    (h12 : k1.createdAt < k2.createdAt) (h23 : k2.createdAt < k3.createdAt)
    (h34 : k3.createdAt < k4.createdAt) (h45 : k4.createdAt < k5.createdAt) :
    (∃ v ∈ (getFeedCore db page limit aid viewer).posts,
      v.id = p.id ∧ v.recentComments.map (fun c => c.id) = [k5.id, k4.id]) ∧
    (∃ d, getPost db p.id viewer = some d ∧
      d.recentComments.map (fun c => c.id) = [k1.id, k2.id, k3.id, k4.id, k5.id]) := by
  have hfilter : db.comments.filter
      (fun c => c.postId == p.id && db.users.any (fun u => u.id == c.userId)) =
      [k1, k2, k3, k4, k5] := by
    rw [List.filter_congr (fun c hcm => by rw [hFK c hcm, Bool.and_true]), hc]
  have hp5 : ([k5] : List CommentRow).Pairwise (fun a b => a.createdAt < b.createdAt) := by
    simp
  have hp4 : ([k4, k5] : List CommentRow).Pairwise (fun a b => a.createdAt < b.createdAt) := by
    refine List.pairwise_cons.mpr ⟨?_, hp5⟩
    intro y hy
    simp only [List.mem_singleton] at hy
    subst hy
    omega
  have hp3 : ([k3, k4, k5] : List CommentRow).Pairwise (fun a b => a.createdAt < b.createdAt) := by
    refine List.pairwise_cons.mpr ⟨?_, hp4⟩
    intro y hy
    simp only [List.mem_cons, List.not_mem_nil, or_false] at hy
    rcases hy with rfl | rfl <;> omega
  have hp2 : ([k2, k3, k4, k5] : List CommentRow).Pairwise (fun a b => a.createdAt < b.createdAt) := by
    refine List.pairwise_cons.mpr ⟨?_, hp3⟩
    intro y hy
    simp only [List.mem_cons, List.not_mem_nil, or_false] at hy
    rcases hy with rfl | rfl | rfl <;> omega
  have hpw : ([k1, k2, k3, k4, k5] : List CommentRow).Pairwise
      (fun a b => a.createdAt < b.createdAt) := by
    refine List.pairwise_cons.mpr ⟨?_, hp2⟩
    intro y hy
    simp only [List.mem_cons, List.not_mem_nil, or_false] at hy
    rcases hy with rfl | rfl | rfl | rfl <;> omega
  have hpwle : ([k1, k2, k3, k4, k5] : List CommentRow).Pairwise
      (fun a b => a.createdAt ≤ b.createdAt) :=
    hpw.imp (fun h => le_of_lt h)
  constructor
  · refine ⟨enrichPt db viewer p, ?_, rfl, ?_⟩
    · rw [getFeedCore_posts]
      exact List.mem_map.mpr ⟨p, hmem, rfl⟩
    · show (((sortKeyDesc (fun c => c.createdAt)
          (db.comments.filter
            (fun c => c.postId == p.id && db.users.any (fun u => u.id == c.userId)))).take 2).map
          (mkCommentView db)).map (fun c => c.id) = [k5.id, k4.id]
      rw [hfilter, sortKeyDesc_of_strict_incr _ _ hpw]
      rfl
  · have hpj : p ∈ joinedPosts db := mem_joined_of_mem_page db page limit aid p hmem
    have hfind : (joinedPosts db).find? (fun x => x.id == p.id) = some p := by
      rw [joinedPosts]
      exact find_filter_by_id db.posts _ p hids (List.mem_of_mem_filter hpj)
        ((List.mem_filter.mp hpj).2)
    rw [getPost.eq_def, hfind]
    refine ⟨_, rfl, ?_⟩
    · show ((sortKeyAsc (fun c => c.createdAt)
          (db.comments.filter
            (fun c => c.postId == p.id && db.users.any (fun u => u.id == c.userId)))).map
          (mkCommentView db)).map (fun c => c.id) = [k1.id, k2.id, k3.id, k4.id, k5.id]
      rw [hfilter, sortKeyAsc_of_sorted _ _ hpwle]
      rfl

/-- Concrete post for the C4 witness. -/
def pC4 : PostRow :=
  { id := 2, userId := 1, imageUrl := "img", caption := none, createdAt := 0, updatedAt := 0 }

/-- Concrete comments c1..c5 in chronological order for the C4 witness. -/
def kC1 : CommentRow :=
  { id := 3, postId := 2, userId := 1, content := ['h'], createdAt := 1, updatedAt := 1 }

def kC2 : CommentRow :=
  { id := 4, postId := 2, userId := 1, content := ['i'], createdAt := 2, updatedAt := 2 }

def kC3 : CommentRow :=
  { id := 5, postId := 2, userId := 1, content := ['x'], createdAt := 3, updatedAt := 3 }

def kC4 : CommentRow :=
  { id := 6, postId := 2, userId := 1, content := ['y'], createdAt := 4, updatedAt := 4 }

def kC5 : CommentRow :=
  { id := 7, postId := 2, userId := 1, content := ['z'], createdAt := 5, updatedAt := 5 }

/-- Store for the C4 witness: one author, one post, five comments. -/
def dbC4 : DB :=
  { users := [{ id := 1, clerkId := "ck_a", name := "a", createdAt := 0 }],
    posts := [pC4], likes := [], comments := [kC1, kC2, kC3, kC4, kC5],
    follows := [], nextId := 10, now := 100 }

/-- Witness for C4 at the concrete five-comment store. -/
theorem c4_comment_ordering_witness :
    (dbC4.posts.Pairwise (fun a b => a.id < b.id) ∧
      pC4 ∈ feedPagePosts dbC4 1 10 none ∧
      dbC4.comments.filter (fun c => c.postId == pC4.id) = [kC1, kC2, kC3, kC4, kC5] ∧
      (∀ c ∈ dbC4.comments, dbC4.users.any (fun u => u.id == c.userId) = true) ∧
      kC1.createdAt < kC2.createdAt ∧ kC2.createdAt < kC3.createdAt ∧
      kC3.createdAt < kC4.createdAt ∧ kC4.createdAt < kC5.createdAt) ∧
    ((∃ v ∈ (getFeedCore dbC4 1 10 none none).posts,
        v.id = pC4.id ∧ v.recentComments.map (fun c => c.id) = [kC5.id, kC4.id]) ∧
      (∃ d, getPost dbC4 pC4.id none = some d ∧
        d.recentComments.map (fun c => c.id) = [kC1.id, kC2.id, kC3.id, kC4.id, kC5.id])) :=
  ⟨⟨by decide, by decide, by decide, by decide, by decide, by decide, by decide, by decide⟩,
    c4_comment_ordering dbC4 1 10 none none pC4 kC1 kC2 kC3 kC4 kC5 (by decide) (by decide)
      (by decide) (by decide) (by decide) (by decide) (by decide) (by decide)⟩

/-! ## Engagement-mutator claims (C5-C8) -/

/-- C5: a second like of an already (post, account)-liked post is answered with
the 409 alreadyLiked conflict outcome, inserts no row, and leaves the post's
likesCount unchanged. -/
theorem c5_like_conflict (db : DB) (clerkId : String) (postId : Nat) (u : UserRow) (l : LikeRow)
    (hu : lookupUserByClerkId db clerkId = some u)
    (hl : l ∈ db.likes) (hlp : l.postId = postId) (hlu : l.userId = u.id) :
    likePost db clerkId postId = (LikeOutcome.alreadyLiked, db) ∧
    (likePost db clerkId postId).1.status = 409 ∧
    ((likePost db clerkId postId).2).likes = db.likes ∧
    likesCnt (likePost db clerkId postId).2 postId = likesCnt db postId := by
  have hdup : db.likes.any (fun x => x.postId == postId && x.userId == u.id) = true := by
    simp only [List.any_eq_true, Bool.and_eq_true, beq_iff_eq]
    exact ⟨l, hl, hlp, hlu⟩
  have heq : likePost db clerkId postId = (LikeOutcome.alreadyLiked, db) := by
    simp [likePost, hu, hdup]
  refine ⟨heq, ?_, ?_, ?_⟩ <;> rw [heq]
  rfl

/-- Store for the C5 witness: one user who has already liked the one post. -/
def dbC5 : DB :=
  { users := [{ id := 1, clerkId := "ck_b", name := "b", createdAt := 0 }],
    posts := [{ id := 2, userId := 1, imageUrl := "m", caption := none, createdAt := 0, updatedAt := 0 }],
    likes := [{ id := 3, postId := 2, userId := 1, createdAt := 1 }],
    comments := [], follows := [], nextId := 10, now := 100 }

/-- Caller account of the C5 witness. -/
def uC5 : UserRow := { id := 1, clerkId := "ck_b", name := "b", createdAt := 0 }

/-- Existing like row of the C5 witness. -/
def lC5 : LikeRow := { id := 3, postId := 2, userId := 1, createdAt := 1 }

/-- Witness for C5 at the concrete already-liked store. -/
theorem c5_like_conflict_witness :
    (lookupUserByClerkId dbC5 "ck_b" = some uC5 ∧ lC5 ∈ dbC5.likes ∧
      lC5.postId = 2 ∧ lC5.userId = uC5.id) ∧
    (likePost dbC5 "ck_b" 2 = (LikeOutcome.alreadyLiked, dbC5) ∧
      (likePost dbC5 "ck_b" 2).1.status = 409 ∧
      ((likePost dbC5 "ck_b" 2).2).likes = dbC5.likes ∧
      likesCnt (likePost dbC5 "ck_b" 2).2 2 = likesCnt dbC5 2) :=
  ⟨⟨by decide, by decide, by decide, by decide⟩,
    c5_like_conflict dbC5 "ck_b" 2 uC5 lC5 (by decide) (by decide) (by decide) (by decide)⟩

/-- C6: a follow request whose followingId is the caller's own account id is
rejected with the 400 InvalidInput outcome before the target-existence check,
and the store is unchanged. -/
theorem c6_self_follow (db : DB) (clerkId : String) (u : UserRow)
    (hu : lookupUserByClerkId db clerkId = some u) :
    followUser db clerkId u.id = (FollowOutcome.selfFollow, db) ∧
    (followUser db clerkId u.id).1.status = 400 := by
  have heq : followUser db clerkId u.id = (FollowOutcome.selfFollow, db) := by
    simp [followUser, hu]
  exact ⟨heq, by rw [heq]; rfl⟩

/-- Caller account of the C6 witness. -/
def uW : UserRow := { id := 1, clerkId := "ck_alice", name := "alice", createdAt := 0 }

/-- Witness for C6 at the witness store. -/
theorem c6_self_follow_witness :
    (lookupUserByClerkId dbW "ck_alice" = some uW) ∧
    (followUser dbW "ck_alice" uW.id = (FollowOutcome.selfFollow, dbW) ∧
      (followUser dbW "ck_alice" uW.id).1.status = 400) :=
  ⟨by decide, c6_self_follow dbW "ck_alice" uW (by decide)⟩

/-! ## Comment validation (C7) -/

/-- Store for the C7 examples: one user and one existing post. -/
def dbC7 : DB :=
  { users := [{ id := 1, clerkId := "ck_c", name := "c", createdAt := 0 }],
    posts := [{ id := 2, userId := 1, imageUrl := "m", caption := none, createdAt := 0, updatedAt := 0 }],
    likes := [], comments := [], follows := [], nextId := 10, now := 100 }

/-- Content whose trimmed length is exactly 2200 but whose raw length is 2201. -/
def longContent : List Char := List.replicate 2200 'a' ++ [' ']

theorem trimChars_repA (n : Nat) :
    trimChars (List.replicate (n + 1) 'a' ++ [' ']) = List.replicate (n + 1) 'a' := by
  have hwa : Char.isWhitespace 'a' = false := by decide
  have hws : Char.isWhitespace ' ' = true := by decide
  have h1 : (List.replicate (n + 1) 'a' ++ [' ']).dropWhile Char.isWhitespace
      = List.replicate (n + 1) 'a' ++ [' '] := by
    rw [List.replicate_succ, List.cons_append, List.dropWhile_cons, hwa]
    simp
  have h2 : (List.replicate (n + 1) 'a' ++ [' ']).reverse
      = ' ' :: List.replicate (n + 1) 'a' := by
    simp [List.reverse_append, List.reverse_replicate]
  have h3 : (' ' :: List.replicate (n + 1) 'a').dropWhile Char.isWhitespace
      = List.replicate (n + 1) 'a' := by
    rw [List.dropWhile_cons, hws]
    simp only [if_true]
    rw [List.replicate_succ, List.dropWhile_cons, hwa]
    simp
  rw [trimChars, h1, h2, h3, List.reverse_replicate]

/-- C7 as stated is false: the 2200-character cap is applied to the raw
content, not the trimmed content.  This content trims to exactly 2200
characters and targets an existing post, so the claim requires a successful
insert, but the handler rejects it with 400. -/
theorem c7_counterexample :
    (trimChars longContent).length = 2200 ∧
    longContent.length = 2201 ∧
    (createComment dbC7 "ck_c" 2 longContent).1 = CommentOutcome.tooLong ∧
    (createComment dbC7 "ck_c" 2 longContent).1.status = 400 ∧
    (createComment dbC7 "ck_c" 2 longContent).2 = dbC7 := by
  have htrim : trimChars longContent = List.replicate 2200 'a' := by
    have h := trimChars_repA 2199
    norm_num at h
    exact h
  have hlen : longContent.length = 2201 := by
    rw [longContent, List.length_append, List.length_replicate, List.length_singleton]
  have hlen2 : (trimChars longContent).length = 2200 := by
    rw [htrim, List.length_replicate]
  have hne : ((trimChars longContent).length == 0) = false := by
    rw [hlen2]
    rfl
  have hgt : longContent.length > 2200 := by
    rw [hlen]
    omega
  have heq : createComment dbC7 "ck_c" 2 longContent = (CommentOutcome.tooLong, dbC7) := by
    simp [createComment, hne, hgt]
  exact ⟨hlen2, hlen, by rw [heq], by rw [heq]; rfl, by rw [heq]⟩

/-- C7 amended: the blank check is on the trimmed content, the 2200-character
cap on the raw content; with the caller resolved, a missing post is 404, and
otherwise a new row holding the trimmed content is inserted. -/
theorem c7_comment_validation (db : DB) (clerkId : String) (postId : Nat)
    (content : List Char) (u : UserRow)
    (hu : lookupUserByClerkId db clerkId = some u) :
    ((trimChars content).length = 0 →
      createComment db clerkId postId content = (CommentOutcome.emptyContent, db)) ∧
    ((trimChars content).length ≠ 0 → content.length > 2200 →
      createComment db clerkId postId content = (CommentOutcome.tooLong, db)) ∧
    ((trimChars content).length ≠ 0 → content.length ≤ 2200 →
      db.posts.find? (fun p => p.id == postId) = none →
      createComment db clerkId postId content = (CommentOutcome.postNotFound, db)) ∧
    (∀ q, (trimChars content).length ≠ 0 → content.length ≤ 2200 →
      db.posts.find? (fun p => p.id == postId) = some q →
      createComment db clerkId postId content =
        (CommentOutcome.success
          { id := db.nextId, postId := postId, userId := u.id, content := trimChars content,
            createdAt := db.now, updatedAt := db.now },
          { db with
            comments := db.comments ++
              [{ id := db.nextId, postId := postId, userId := u.id,
                 content := trimChars content, createdAt := db.now, updatedAt := db.now }],
            nextId := db.nextId + 1 })) := by
  refine ⟨?_, ?_, ?_, ?_⟩
  · intro h0
    simp [createComment, h0]
  · intro hne hlong
    have hb : ((trimChars content).length == 0) = false := by simpa using hne
    simp [createComment, hb, hlong]
  · intro hne hshort hfind
    have hb : ((trimChars content).length == 0) = false := by simpa using hne
    simp [createComment, hb, Nat.not_lt.mpr hshort, hu, hfind]
  · intro q hne hshort hfind
    have hb : ((trimChars content).length == 0) = false := by simpa using hne
    simp [createComment, hb, Nat.not_lt.mpr hshort, hu, hfind]

/-- Row inserted by the C7 witness request. -/
def newC7 : CommentRow :=
  { id := 10, postId := 2, userId := 1, content := ['h', 'i'],
    createdAt := 100, updatedAt := 100 }

/-- Witness for the amended C7, covering a successful insert of trimmed
content at the concrete store. -/
theorem c7_comment_validation_witness :
    (lookupUserByClerkId dbC7 "ck_c" = some { id := 1, clerkId := "ck_c", name := "c", createdAt := 0 } ∧
      (trimChars [' ', 'h', 'i', ' ']).length ≠ 0 ∧
      ([' ', 'h', 'i', ' '] : List Char).length ≤ 2200 ∧
      dbC7.posts.find? (fun p => p.id == 2)
        = some { id := 2, userId := 1, imageUrl := "m", caption := none, createdAt := 0, updatedAt := 0 }) ∧
    createComment dbC7 "ck_c" 2 [' ', 'h', 'i', ' '] =
      (CommentOutcome.success newC7,
        { dbC7 with comments := [newC7], nextId := 11 }) := by
  refine ⟨⟨by decide, by decide, by decide, by decide⟩, ?_⟩
  have h := (c7_comment_validation dbC7 "ck_c" 2 [' ', 'h', 'i', ' ']
    { id := 1, clerkId := "ck_c", name := "c", createdAt := 0 } (by decide)).2.2.2
    { id := 2, userId := 1, imageUrl := "m", caption := none, createdAt := 0, updatedAt := 0 }
    (by decide) (by decide) (by decide)
  rw [h]
  decide

/-! ## Ownership enforcement (C8) -/

/-- C8: a non-author deleting a comment, editing a post (with a valid caption),
or deleting a post always gets the 403 Forbidden outcome with the store left
unchanged. -/
theorem c8_ownership :
    (∀ (db : DB) (clerkId : String) (commentId : Nat) (u : UserRow) (c : CommentRow),
      lookupUserByClerkId db clerkId = some u →
      db.comments.find? (fun x => x.id == commentId) = some c →
      c.userId ≠ u.id →
      deleteComment db clerkId commentId = (DeleteCommentOutcome.forbidden, db) ∧
      (deleteComment db clerkId commentId).1.status = 403) ∧
    (∀ (db : DB) (clerkId : String) (postId : Nat) (caption : Option String)
        (u : UserRow) (p : PostRow),
      (match caption with | some s => decide (s.trim.length > 2200) | none => false) = false →
      lookupUserByClerkId db clerkId = some u →
      db.posts.find? (fun x => x.id == postId) = some p →
      p.userId ≠ u.id →
      editPost db clerkId postId caption = (EditPostOutcome.forbidden, db) ∧
      (editPost db clerkId postId caption).1.status = 403) ∧
    (∀ (db : DB) (clerkId : String) (postId : Nat) (u : UserRow) (p : PostRow),
      lookupUserByClerkId db clerkId = some u →
      db.posts.find? (fun x => x.id == postId) = some p →
      p.userId ≠ u.id →
      deletePost db clerkId postId = (DeletePostOutcome.forbidden, db) ∧
      (deletePost db clerkId postId).1.status = 403) := by
  refine ⟨?_, ?_, ?_⟩
  · intro db clerkId commentId u c hu hc hne
    have hb : (c.userId != u.id) = true := by simpa using hne
    have heq : deleteComment db clerkId commentId = (DeleteCommentOutcome.forbidden, db) := by
      simp [deleteComment, hu, hc, hb]
    exact ⟨heq, by rw [heq]; rfl⟩
  · intro db clerkId postId caption u p hcap hu hp hne
    have hb : (p.userId != u.id) = true := by simpa using hne
    have heq : editPost db clerkId postId caption = (EditPostOutcome.forbidden, db) := by
      simp [editPost, hcap, hu, hp, hb]
    exact ⟨heq, by rw [heq]; rfl⟩
  · intro db clerkId postId u p hu hp hne
    have hb : (p.userId != u.id) = true := by simpa using hne
    have heq : deletePost db clerkId postId = (DeletePostOutcome.forbidden, db) := by
      simp [deletePost, hu, hp, hb]
    exact ⟨heq, by rw [heq]; rfl⟩

/-- Store for the C8 witness: the post and comment belong to account 1, and
account 2 is the non-author caller. -/
def dbC8 : DB :=
  { users := [{ id := 1, clerkId := "ck_a", name := "a", createdAt := 0 },
              { id := 2, clerkId := "ck_b", name := "b", createdAt := 0 }],
    posts := [{ id := 3, userId := 1, imageUrl := "m", caption := none, createdAt := 0, updatedAt := 0 }],
    likes := [],
    comments := [{ id := 4, postId := 3, userId := 1, content := ['h'], createdAt := 1, updatedAt := 1 }],
    follows := [], nextId := 10, now := 100 }

/-- Non-author caller of the C8 witness. -/
def uC8 : UserRow := { id := 2, clerkId := "ck_b", name := "b", createdAt := 0 }

/-- Targeted comment of the C8 witness. -/
def cC8 : CommentRow :=
  { id := 4, postId := 3, userId := 1, content := ['h'], createdAt := 1, updatedAt := 1 }

/-- Targeted post of the C8 witness. -/
def pC8 : PostRow :=
  { id := 3, userId := 1, imageUrl := "m", caption := none, createdAt := 0, updatedAt := 0 }

/-- Witness for C8: all three non-author mutations at the concrete store. -/
theorem c8_ownership_witness :
    (lookupUserByClerkId dbC8 "ck_b" = some uC8 ∧
      dbC8.comments.find? (fun x => x.id == 4) = some cC8 ∧ cC8.userId ≠ uC8.id ∧
      dbC8.posts.find? (fun x => x.id == 3) = some pC8 ∧ pC8.userId ≠ uC8.id) ∧
    ((deleteComment dbC8 "ck_b" 4 = (DeleteCommentOutcome.forbidden, dbC8) ∧
        (deleteComment dbC8 "ck_b" 4).1.status = 403) ∧
      (editPost dbC8 "ck_b" 3 none = (EditPostOutcome.forbidden, dbC8) ∧
        (editPost dbC8 "ck_b" 3 none).1.status = 403) ∧
      (deletePost dbC8 "ck_b" 3 = (DeletePostOutcome.forbidden, dbC8) ∧
        (deletePost dbC8 "ck_b" 3).1.status = 403)) :=
  ⟨⟨by decide, by decide, by decide, by decide, by decide⟩,
    ⟨c8_ownership.1 dbC8 "ck_b" 4 uC8 cC8 (by decide) (by decide) (by decide),
      c8_ownership.2.1 dbC8 "ck_b" 3 none uC8 pC8 (by decide) (by decide)
        (by decide) (by decide),
      c8_ownership.2.2 dbC8 "ck_b" 3 uC8 pC8 (by decide) (by decide) (by decide)⟩⟩

/-! ## Unresolved author filter (C9) and the pagination total (C10) -/

/-- C9: a feed request whose author filter does not resolve to an account
returns the empty success page (no posts, total 0, hasMore false) and issues
no fan-out query, rather than an error. -/
theorem c9_unresolved_filter (db : DB) (page limit : Nat) (f : String)
    (viewer : Option String) (h : lookupUserByClerkId db f = none) :
    getFeed db page limit (some f) viewer =
      { posts := [], page := page, limit := limit, total := 0, hasMore := false,
        queries := [] } := by
  simp [getFeed, h]

/-- Witness for C9 at the witness store with an unknown filter id. -/
theorem c9_unresolved_filter_witness :
    lookupUserByClerkId dbW "nobody" = none ∧
    getFeed dbW 1 10 (some "nobody") none =
      { posts := [], page := 1, limit := 10, total := 0, hasMore := false,
        queries := [] } :=
  ⟨by decide, c9_unresolved_filter dbW 1 10 "nobody" none (by decide)⟩

/-- C10: the pagination total of every feed response is the size of the
returned page itself (never more than the limit); at the concrete two-post
store with limit 1 it differs from the store's matching total. -/
theorem c10_total_is_page_size :
    (∀ (db : DB) (page limit : Nat) (filterUserId viewer : Option String),
      (getFeed db page limit filterUserId viewer).total =
        (getFeed db page limit filterUserId viewer).posts.length ∧
      (getFeed db page limit filterUserId viewer).posts.length ≤ limit) ∧
    ((getFeed dbW 1 1 none none).total = 1 ∧ (feedMatchingByFilter dbW none).length = 2) := by
  constructor
  · intro db page limit filterUserId viewer
    have hcore : ∀ aid,
        (getFeedCore db page limit aid viewer).total =
          (getFeedCore db page limit aid viewer).posts.length ∧
        (getFeedCore db page limit aid viewer).posts.length ≤ limit := by
      intro aid
      constructor
      · simp [getFeedCore]
      · simp only [getFeedCore, List.length_map, feedPagePosts]
        exact List.length_take_le _ _
    cases hf : filterUserId with
    | none => exact hcore none
    | some f =>
      cases hl : lookupUserByClerkId db f with
      | some t =>
        have hg : getFeed db page limit (some f) viewer
            = getFeedCore db page limit (some t.id) viewer := by
          simp [getFeed, hl]
        rw [hg]
        exact hcore (some t.id)
      | none =>
        constructor <;> simp [getFeed, hl]
  · exact ⟨by decide, by decide⟩

end MySns
